import Mathlib

/-!
Verification development for the `inctrl` instrument-control library.

The Python sources are shallowly embedded:
* Python `float` values are modelled as exact rationals (`ℚ`);
* Python methods that mutate object state are modelled as functions
  returning the post-state;
* fallible code paths (index errors, malformed input) are modelled with
  `Option`.
-/

namespace Inctrl

/-! ## `TimeUnit` (src/inctrl/model/time.py) -/

/-- The `TimeUnit` integer enumeration: NS=1, US=1e3, MS=1e6, S=1e9, KS=1e12. -/
inductive TimeUnit where
  | NS | US | MS | S | KS
  deriving DecidableEq, Repr

/-- The integer value carried by each enum member, as a rational. -/
def TimeUnit.val : TimeUnit → ℚ
  | .NS => 1
  | .US => 1000
  | .MS => 1000000
  | .S => 1000000000
  | .KS => 1000000000000

theorem TimeUnit.val_pos (u : TimeUnit) : 0 < u.val := by
  cases u <;> norm_num [TimeUnit.val]

theorem TimeUnit.val_ne_zero (u : TimeUnit) : u.val ≠ 0 :=
  ne_of_gt u.val_pos

/-! ## `Duration` (src/inctrl/model/time.py)

`Duration.__init__` stores the pair (time_interval, time_unit). -/

structure Duration where
  interval : ℚ
  unit : TimeUnit
  deriving DecidableEq, Repr

namespace Duration

/-- `Duration.to_float`: `interval * self.unit.value / target.value`. -/
def toFloat (d : Duration) (u : TimeUnit) : ℚ :=
  d.interval * d.unit.val / u.val

/-- `Duration.in_unit`: same scaling as `to_float`, repackaged in the target unit. -/
def inUnit (d : Duration) (u : TimeUnit) : Duration :=
  ⟨d.interval * d.unit.val / u.val, u⟩

/-- The physical value of a duration expressed in nanoseconds
(`to_float(TimeUnit.NS)`); used as the abstraction function. -/
def valueNs (d : Duration) : ℚ :=
  d.interval * d.unit.val

/-- `Duration.optimize`: scan KS, S, MS, US, NS and take the first unit whose
`to_float` lands in `[1, 1000)`; otherwise fall back to NS. -/
def optimize (d : Duration) : Duration :=
  if 1 ≤ d.toFloat .KS ∧ d.toFloat .KS < 1000 then d.inUnit .KS
  else if 1 ≤ d.toFloat .S ∧ d.toFloat .S < 1000 then d.inUnit .S
  else if 1 ≤ d.toFloat .MS ∧ d.toFloat .MS < 1000 then d.inUnit .MS
  else if 1 ≤ d.toFloat .US ∧ d.toFloat .US < 1000 then d.inUnit .US
  else if 1 ≤ d.toFloat .NS ∧ d.toFloat .NS < 1000 then d.inUnit .NS
  else d.inUnit .NS

/-- `Duration.__sub__`: subtract in the left operand's unit, then `optimize`. -/
def sub (a b : Duration) : Duration :=
  optimize ⟨a.interval - b.toFloat a.unit, a.unit⟩

/-- `Duration.__add__`: add in the left operand's unit, then `optimize`. -/
def add (a b : Duration) : Duration :=
  optimize ⟨a.interval + b.toFloat a.unit, a.unit⟩

/-- `Duration.__abs__`. -/
def absD (a : Duration) : Duration :=
  ⟨|a.interval|, a.unit⟩

/-- `Duration.__mul__` / `__rmul__` by a scalar. -/
def mulScalar (a : Duration) (c : ℚ) : Duration :=
  ⟨a.interval * c, a.unit⟩

/-- `Duration.__truediv__` by a scalar. -/
def divScalar (a : Duration) (c : ℚ) : Duration :=
  ⟨a.interval / c, a.unit⟩

/-- `ONE_PICOSECOND = Duration.value_of("0.001ns")`. -/
def onePicosecond : Duration := ⟨1/1000, .NS⟩

/-- `Duration.__lt__`: `self.interval < other.to_float(self.unit)`. -/
def ltB (a b : Duration) : Bool :=
  decide (a.interval < b.toFloat a.unit)

/-- `Duration.__eq__`: `abs(self - other) < ONE_PICOSECOND`. -/
def eqB (a b : Duration) : Bool :=
  ltB (absD (sub a b)) onePicosecond

/-- `Duration.__gt__`: `self.interval > other.to_float(self.unit)`. -/
def gtB (a b : Duration) : Bool :=
  decide (b.toFloat a.unit < a.interval)

/-- `Duration.__ge__`: `self > other or self == other`. -/
def geB (a b : Duration) : Bool :=
  gtB a b || eqB a b

/-! Value-level characterizations of the `Duration` operations. -/

theorem valueNs_inUnit (d : Duration) (u : TimeUnit) :
    (d.inUnit u).valueNs = d.valueNs := by
  simp only [inUnit, valueNs]
  exact div_mul_cancel₀ _ u.val_ne_zero

theorem unit_inUnit (d : Duration) (u : TimeUnit) : (d.inUnit u).unit = u := rfl

theorem toFloat_eq (d : Duration) (u : TimeUnit) :
    d.toFloat u = d.valueNs / u.val := by
  simp only [toFloat, valueNs]

theorem valueNs_optimize (d : Duration) : d.optimize.valueNs = d.valueNs := by
  unfold optimize
  repeat' split
  all_goals exact valueNs_inUnit d _

theorem valueNs_sub (a b : Duration) :
    (a.sub b).valueNs = a.valueNs - b.valueNs := by
  unfold sub
  rw [valueNs_optimize]
  simp only [valueNs, toFloat]
  have h := a.unit.val_ne_zero
  field_simp

theorem valueNs_absD (a : Duration) : a.absD.valueNs = |a.valueNs| := by
  simp only [absD, valueNs, abs_mul]
  rw [abs_of_pos a.unit.val_pos]

theorem ltB_iff (a b : Duration) : a.ltB b = true ↔ a.valueNs < b.valueNs := by
  simp only [ltB, decide_eq_true_eq, toFloat_eq]
  rw [lt_div_iff₀ a.unit.val_pos]
  constructor
  · intro h
    calc a.valueNs = a.interval * a.unit.val := rfl
    _ < b.valueNs := h
  · intro h
    exact h

theorem gtB_iff (a b : Duration) : a.gtB b = true ↔ b.valueNs < a.valueNs := by
  simp only [gtB, decide_eq_true_eq, toFloat_eq]
  rw [div_lt_iff₀ a.unit.val_pos]
  constructor
  · intro h
    calc b.valueNs < a.interval * a.unit.val := h
    _ = a.valueNs := rfl
  · intro h
    exact h

/-- The epsilon-equality of `Duration.__eq__`, at the level of physical values:
two durations compare equal iff their values differ by less than
`ONE_PICOSECOND` (0.001 ns). -/
theorem eqB_iff (a b : Duration) :
    a.eqB b = true ↔ |a.valueNs - b.valueNs| < 1/1000 := by
  simp only [eqB]
  rw [ltB_iff, valueNs_absD, valueNs_sub]
  have hp : onePicosecond.valueNs = 1/1000 := by
    simp [onePicosecond, valueNs, TimeUnit.val]
  rw [hp]

theorem geB_iff (a b : Duration) :
    a.geB b = true ↔ b.valueNs < a.valueNs ∨ |a.valueNs - b.valueNs| < 1/1000 := by
  simp only [geB, Bool.or_eq_true]
  rw [gtB_iff, eqB_iff]

end Duration

/-! ## Generic oscilloscope algorithms (src/inctrl/model/oscilloscope.py)

The device behind the abstract methods is modelled by a function
`sts : Duration → Duration` standing for `set_time_scale`: it stores the
quantized scale as the device state and returns it; `get_time_scale`
subsequently reads that same stored value, as driver `SDS8Oscilloscope`
does. -/

/-- The `for i in range(50)` loop body of `Oscilloscope.set_time_window`,
over the remaining loop indices. `req` is `requested_scale`, `cur` is the
device's currently configured scale (the value `get_time_window` would
read back if the loop exhausts). -/
def setTimeWindowGo (sts : Duration → Duration) (ref : Duration) :
    List ℕ → Duration → Duration → Duration
  | [], _, cur => cur
  | i :: rest, req, cur =>
    let s := sts req
    if s.geB req then s
    else setTimeWindowGo sts ref rest (ref.mulScalar (1 + (i : ℚ) / 10)) s

/-- `Oscilloscope.set_time_window`: request `w / ndiv` per division, retry up
to 50 times, and return `get_time_window()` — the final configured scale
times `ndiv`, unit-optimized. `st0` is the scale configured on the device
before the call. -/
def setTimeWindow (sts : Duration → Duration) (st0 : Duration) (ndiv : ℕ)
    (w : Duration) : Duration :=
  ((setTimeWindowGo sts (w.divScalar ndiv) (List.range 50)
      (w.divScalar ndiv) st0).mulScalar ndiv).optimize

/-- A discrete 1–2–5 ladder of per-division scales, in nanoseconds. -/
def nsLadder : List ℚ := [1000, 2000, 5000, 10000, 20000, 50000]

/-- A device that quantizes a requested scale DOWN to the largest ladder
entry not exceeding it. -/
def quantDown (r : ℚ) : ℚ :=
  (nsLadder.filter (fun x => decide (x ≤ r))).foldl max 0

/-- `set_time_scale` of the round-down device: store and return the
quantized scale (denominated in nanoseconds). -/
def stsDown (d : Duration) : Duration := ⟨quantDown d.valueNs, .NS⟩

/-! ### Channel vertical range (`ScopeChanel.set_range_V` / `get_range_V`)

The channel device state is the configured (scale, offset) pair; the
abstract `set_scale_V` / `set_offset_V` are modelled by quantization
functions `quantS` / `quantO` applied to the requested value. -/

structure ChanState where
  scale : ℚ
  offset : ℚ
  deriving DecidableEq, Repr

/-- `ScopeChanel.get_range_V`: `(-offset - dv, -offset + dv)` with
`dv = scale * n / 2`. -/
def getRangeV (n : ℚ) (st : ChanState) : ℚ × ℚ :=
  (-st.offset - st.scale * n / 2, -st.offset + st.scale * n / 2)

/-- `ScopeChanel.set_range_V`: configure `scale = (v_max - v_min)/n` and
`offset = (v_max - v_min)/2 - v_max`, then return `get_range_V()`.
The source contains no validity check on `v_min`/`v_max`. -/
def setRangeV (quantS quantO : ℚ → ℚ) (n : ℚ) (st : ChanState)
    (vmin vmax : ℚ) : (ℚ × ℚ) × ChanState :=
  let st1 : ChanState := { st with scale := quantS ((vmax - vmin) / n) }
  let st2 : ChanState := { st1 with offset := quantO ((vmax - vmin) / 2 - vmax) }
  (getRangeV n st2, st2)

/-! ## `Waveform` (src/inctrl/model/waveform.py)

The stored state is (`dx_s`, `trigger_index`, `ys`, `name`); `__init__`
derives the x axis and the (x, y) pair list from these, so they are
modelled as derived functions. Methods that read `self` without assigning
to it are modelled as returning the untouched post-state alongside their
result; `name`'s property setter assigns `self.__name` and is modelled as
returning the updated post-state. -/

structure Waveform where
  dx_s : ℚ
  trigger_index : ℤ
  ys : List ℚ
  name : String
  deriving DecidableEq, Repr

namespace Waveform

/-- The x axis computed in `__init__`: `(i - trigger_index) * dx_s`. -/
def xs_s (w : Waveform) : List ℚ :=
  (List.range w.ys.length).map (fun i => ((i : ℚ) - (w.trigger_index : ℚ)) * w.dx_s)

/-- The `name` property getter. -/
def getName (w : Waveform) : String × Waveform := (w.name, w)

/-- The `name` property setter: `self.__name = name`. -/
def setName (w : Waveform) (n : String) : Waveform := { w with name := n }

/-- `Waveform.y` without a predicate: returns the stored samples. -/
def yOp (w : Waveform) : List ℚ × Waveform := (w.ys, w)

/-- `Waveform.x` without a predicate, in a given time unit. -/
def xOp (w : Waveform) (u : TimeUnit) : List ℚ × Waveform :=
  ((w.xs_s).map (fun t => t * (TimeUnit.S.val / u.val)), w)

/-- `Waveform.xy` without a predicate. -/
def xyOp (w : Waveform) (u : TimeUnit) : (List ℚ × List ℚ) × Waveform :=
  (((w.xOp u).1, (w.yOp).1), w)

/-- `Waveform.__mul__` by a scalar. -/
def mulScalarOp (w : Waveform) (c : ℚ) : Waveform × Waveform :=
  ({ w with ys := w.ys.map (· * c) }, w)

/-- `Waveform.__truediv__` by a scalar. -/
def divScalarOp (w : Waveform) (c : ℚ) : Waveform × Waveform :=
  ({ w with ys := w.ys.map (· / c) }, w)

/-- `Waveform.__add__`: requires matching x axes (else `RuntimeError`). -/
def addOp (w other : Waveform) : Option Waveform × Waveform :=
  (if w.xs_s = other.xs_s
   then some { w with ys := (w.ys.zip other.ys).map (fun p => p.1 + p.2) }
   else none, w)

/-- `Waveform.__sub__`: `self + (-1 * other)`. -/
def subOp (w other : Waveform) : Option Waveform × Waveform :=
  ((w.addOp (other.mulScalarOp (-1)).1).1, w)

end Waveform

/-! ## SDS8xx waveform decoder
(src/inctrl/drivers/oscilloscopes/siglent/sds8x.py, `get_waveform`) -/

/-- The fixed 39-entry `tdiv_enum` table of per-division times, in seconds. -/
def tdivEnum : List ℚ :=
  [200/1000000000000, 500/1000000000000,
   1/1000000000, 2/1000000000, 5/1000000000, 10/1000000000, 20/1000000000,
   50/1000000000, 100/1000000000, 200/1000000000, 500/1000000000,
   1/1000000, 2/1000000, 5/1000000, 10/1000000, 20/1000000,
   50/1000000, 100/1000000, 200/1000000, 500/1000000,
   1/1000, 2/1000, 5/1000, 10/1000, 20/1000,
   50/1000, 100/1000, 200/1000, 500/1000,
   1, 2, 5, 10, 20, 50, 100, 200, 500, 1000]

/-- A signed 16-bit little-endian value from two bytes (numpy dtype `<h`). -/
def int16OfBytes (b0 b1 : ℕ) : ℤ :=
  if b0 + 256 * b1 < 32768 then ((b0 + 256 * b1 : ℕ) : ℤ)
  else ((b0 + 256 * b1 : ℕ) : ℤ) - 65536

/-- `np.frombuffer(data, "<h")`: consecutive byte pairs as signed 16-bit
little-endian integers; a buffer of odd length is an error. -/
def frombufferI16 : List ℕ → Option (List ℤ)
  | [] => some []
  | [_] => none
  | b0 :: b1 :: rest => (frombufferI16 rest).map (fun l => int16OfBytes b0 b1 :: l)

/-- The preamble fields of `get_waveform` after binary decoding, as exact
rationals (the byte-level IEEE-754 decode of the header is not modelled;
the claims quantify over decoded field values). -/
structure Preamble where
  vertical_scale : ℚ
  vertical_offset : ℚ
  code_per_division : ℚ
  horizontal_interval : ℚ
  trigger_delay : ℚ
  tdiv_index : ℕ
  deriving DecidableEq, Repr

/-- Python `int()` applied to a float: truncation toward zero. -/
def pyTrunc (q : ℚ) : ℤ :=
  if 0 ≤ q then ⌊q⌋ else ⌈q⌉

/-- The argument values `get_waveform` evaluates for the `Waveform(...)`
constructor call: look up the timebase in `tdiv_enum` (an out-of-range
index is a Python `IndexError`), decode the data block as signed 16-bit LE
codes, scale each code by `vertical_scale / code_per_division` minus
`vertical_offset`, and compute the trigger index with Python `int(...)`
truncation. Returns `(dx_s, trigger_index, ys)`, or `none` when the lookup
or buffer decode raises. -/
def sds8DecodeVals (p : Preamble) (ndiv : ℕ) (data : List ℕ) :
    Option (ℚ × ℤ × List ℚ) :=
  (tdivEnum.get? p.tdiv_index).bind fun tb =>
    (frombufferI16 data).map fun codes =>
      (p.horizontal_interval,
       pyTrunc ((tb * (ndiv : ℚ) / 2 - p.trigger_delay) / p.horizontal_interval),
       codes.map
         (fun c : ℤ => (c : ℚ) * p.vertical_scale / p.code_per_division - p.vertical_offset))

/-- How a call to `SDS8OscilloscopeChannel.get_waveform` can end. -/
inductive SDS8GetWaveformResult where
  | waveform (w : Waveform)
  | typeError
  | decodeError
  deriving DecidableEq, Repr

/-- `SDS8OscilloscopeChannel.get_waveform`: evaluate the decode, then call
`Waveform(dx_s=…, trigger_index=…, ys=…)`. `Waveform.__init__` requires
the `name` parameter and the call supplies none, so after a successful
decode the constructor call raises `TypeError` — the function never
returns a `Waveform`. -/
def sds8GetWaveform (p : Preamble) (ndiv : ℕ) (data : List ℕ) :
    SDS8GetWaveformResult :=
  match sds8DecodeVals p ndiv data with
  | none => .decodeError
  | some _ => .typeError

/-! ## Trigger wait loop
(src/inctrl/drivers/oscilloscopes/siglent/sds8x.py, `wait_for_waveform`)

The device is modelled by reply streams indexed by poll number, and the
wall clock by the elapsed seconds observed at each poll; the unbounded
`while True` loop is given fuel, with `polling` meaning the loop is still
running after that many polls. -/

inductive WaitOutcome where
  | fired | timedOut | timeoutError | polling
  deriving DecidableEq, Repr

/-- One mode's polling loop: check the fired condition, then the timeout
(`elif timeout_s >= 0: if elapsed >= timeout_s`). -/
def waitLoop (fired : ℕ → Bool) (elapsed : ℕ → ℚ) (timeout_s : ℚ) (eot : Bool) :
    ℕ → ℕ → WaitOutcome
  | 0, _ => .polling
  | fuel + 1, k =>
    if fired k then .fired
    else if 0 ≤ timeout_s then
      if timeout_s ≤ elapsed k then (if eot then .timeoutError else .timedOut)
      else waitLoop fired elapsed timeout_s eot fuel (k + 1)
    else waitLoop fired elapsed timeout_s eot fuel (k + 1)

/-- ASCII `str.lower` on one character. -/
def lowerChar (c : Char) : Char :=
  if 'A' ≤ c ∧ c ≤ 'Z' then Char.ofNat (c.toNat + 32) else c

/-- The fired condition polled each iteration: in `"single"` mode the
trigger status reply (lowercased) equals `"stop"`; otherwise the parsed
INR reply has its least-significant bit set (`inr & 0x01 == 1`). Reply
texts are modelled as character lists. -/
def pollFired (mode : List Char) (status : ℕ → List Char) (inr : ℕ → ℕ) (k : ℕ) : Bool :=
  if mode.map lowerChar = "single".data then
    decide ((status k).map lowerChar = "stop".data)
  else decide ((inr k) % 2 = 1)

/-- `SDS8OscilloscopeTriggerNamespace.wait_for_waveform`:
`timeout_s = -1` when no timeout is given, else the timeout in seconds. -/
def waitForWaveform (mode : List Char) (status : ℕ → List Char) (inr : ℕ → ℕ)
    (elapsed : ℕ → ℚ) (timeout : Option ℚ) (eot : Bool) (fuel : ℕ) : WaitOutcome :=
  let timeout_s : ℚ := match timeout with | none => -1 | some t => t
  waitLoop (pollFired mode status inr) elapsed timeout_s eot fuel 0

/-! ## `CommandDispatcher` (src/inctrl/drivers/command_dispatcher.py)

The transport is a function from message to reply text. A Python method
whose body ends without `return` yields `None`, modelled as `none`. -/

/-- `CommandDispatcher.read`: computes the stripped reply but has no
`return` statement, so the caller receives `None`. -/
def dispatcherRead (transport : String → String) (msg : String) : Option String :=
  let _stripped := (transport msg).trim
  none

/-- `CommandDispatcher.query`: `return self.visa_resource.query(msg).strip()`. -/
def dispatcherQuery (transport : String → String) (msg : String) : Option String :=
  some ((transport msg).trim)

/-! ## `Duration.value_of` text parsing (src/inctrl/model/time.py)

The anchored expression
`^\s*(?P<value>-?\d+(?:\.\d+)?(?:[eE][+-]?\d+)?)\s*(?P<unit>ks|s|ms|us|ns|KS|S|MS|US|NS)\s*$`
is embedded as a deterministic scanner over `List Char`; since every
optional group is followed only by text a unit cannot start with, greedy
scanning coincides with the regular-expression match. `float(...)` of the
matched value group is modelled as the exact rational the literal denotes.
The source pattern is a Unicode `str` regex, so `\s` and `\d` also match
non-ASCII whitespace (e.g. U+00A0) and non-ASCII decimal digits
(category Nd, e.g. U+0663); the scanner here embeds their ASCII
fragments, so its theorems characterise the parser on ASCII input only. -/

/-- The ASCII fragment of `\s`: exactly the ASCII characters Python's
`re.\s` matches, namely U+0009–U+000D, U+001C–U+001F, and space. -/
def isWsB (c : Char) : Bool :=
  c == ' ' || c == '\t' || c == '\n' || c == '\r' || c == '\x0b' || c == '\x0c'
    || c == '\x1c' || c == '\x1d' || c == '\x1e' || c == '\x1f'

/-- The natural number denoted by a list of decimal digit characters. -/
def digitsVal (ds : List Char) : ℕ :=
  ds.foldl (fun a c => 10 * a + (c.toNat - 48)) 0

/-- A structural match of the regex `value` group: sign, integer digits,
optional fraction digits, optional exponent (is-uppercase-E, optional
sign where `some true` is `-`, digits). -/
structure NumLit where
  neg : Bool
  ds : List Char
  fr : Option (List Char)
  ex : Option (Bool × Option Bool × List Char)
  deriving DecidableEq, Repr

namespace NumLit

/-- Well-formedness: digit groups are nonempty and hold decimal digits. -/
def WF (lit : NumLit) : Prop :=
  lit.ds ≠ [] ∧ (∀ c ∈ lit.ds, c.isDigit = true) ∧
  (∀ f ∈ lit.fr, f ≠ [] ∧ ∀ c ∈ f, c.isDigit = true) ∧
  (∀ e ∈ lit.ex, e.2.2 ≠ [] ∧ ∀ c ∈ e.2.2, c.isDigit = true)

/-- The text of an optional fraction group. -/
def frText : Option (List Char) → List Char
  | none => []
  | some f => '.' :: f

/-- The text of an optional exponent group. -/
def exText : Option (Bool × Option Bool × List Char) → List Char
  | none => []
  | some (uE, sgn, eds) =>
    (if uE then 'E' else 'e') ::
      ((match sgn with | none => [] | some true => ['-'] | some false => ['+']) ++ eds)

/-- The text of the `value` group this literal stands for. -/
def render (lit : NumLit) : List Char :=
  (if lit.neg then ['-'] else []) ++ lit.ds ++ frText lit.fr ++ exText lit.ex

/-- The rational number the literal denotes (`float` of the value text). -/
def value (lit : NumLit) : ℚ :=
  let m : ℚ := (digitsVal lit.ds : ℚ) +
    (match lit.fr with
     | none => 0
     | some f => (digitsVal f : ℚ) / (10 : ℚ) ^ f.length)
  let e : ℚ := match lit.ex with
    | none => 1
    | some (_, sgn, eds) =>
      if sgn = some true then 1 / (10 : ℚ) ^ digitsVal eds
      else (10 : ℚ) ^ digitsVal eds
  (if lit.neg then -m else m) * e

end NumLit

/-- Scan the optional `(?:\.\d+)?` group; if the dot is not followed by a
digit the group matches nothing and consumes nothing. -/
def parseFracPart (l : List Char) : Option (List Char) × List Char :=
  if l.head? == some '.' then
    let fs := l.tail.takeWhile Char.isDigit
    if fs.isEmpty then (none, l)
    else (some fs, l.tail.dropWhile Char.isDigit)
  else (none, l)

/-- Scan the optional `(?:[eE][+-]?\d+)?` group; without trailing digits
the group matches nothing and consumes nothing. -/
def parseExpPart (l : List Char) : Option (Bool × Option Bool × List Char) × List Char :=
  if l.head? == some 'e' || l.head? == some 'E' then
    let r := l.tail
    let sgn : Option Bool :=
      if r.head? == some '+' then some false
      else if r.head? == some '-' then some true
      else none
    let r1 := if sgn.isSome then r.tail else r
    let es := r1.takeWhile Char.isDigit
    if es.isEmpty then (none, l)
    else (some (l.head? == some 'E', sgn, es), r1.dropWhile Char.isDigit)
  else (none, l)

/-- Scan the whole `value` group: `-?\d+(?:\.\d+)?(?:[eE][+-]?\d+)?`,
with `\d` embedded as its ASCII fragment `[0-9]` (`Char.isDigit`); the
Unicode pattern also accepts non-ASCII Nd digits, outside this model. -/
def parseNumLit (l : List Char) : Option (NumLit × List Char) :=
  let neg : Bool := l.head? == some '-'
  let l1 := if neg then l.tail else l
  let ds := l1.takeWhile Char.isDigit
  if ds.isEmpty then none
  else
    let fp := parseFracPart (l1.dropWhile Char.isDigit)
    let ep := parseExpPart fp.2
    some (⟨neg, ds, fp.1, ep.1⟩, ep.2)

/-- The exact text of a unit alternative: lowercase or uppercase. -/
def unitText (u : TimeUnit) (upper : Bool) : List Char :=
  match u, upper with
  | .KS, false => ['k', 's']
  | .S, false => ['s']
  | .MS, false => ['m', 's']
  | .US, false => ['u', 's']
  | .NS, false => ['n', 's']
  | .KS, true => ['K', 'S']
  | .S, true => ['S']
  | .MS, true => ['M', 'S']
  | .US, true => ['U', 'S']
  | .NS, true => ['N', 'S']

/-- The `unit` alternation `ks|s|ms|us|ns|KS|S|MS|US|NS` combined with
`TimeUnit.value_of` (which lowercases and maps to the enum). -/
def unitOf (l : List Char) : Option TimeUnit :=
  if l = ['k', 's'] ∨ l = ['K', 'S'] then some .KS
  else if l = ['s'] ∨ l = ['S'] then some .S
  else if l = ['m', 's'] ∨ l = ['M', 'S'] then some .MS
  else if l = ['u', 's'] ∨ l = ['U', 'S'] then some .US
  else if l = ['n', 's'] ∨ l = ['N', 'S'] then some .NS
  else none

/-- `Duration.__matcher.match` composed with the constructor call in
`Duration.value_of`: on success the magnitude/unit pair of the resulting
`Duration`; on failure (`RuntimeError`) `none`. Faithful to the source on
ASCII input; the source's Unicode `\s`/`\d` additionally accept non-ASCII
whitespace and digits, outside this model's scope. -/
def durationMatch (l : List Char) : Option (ℚ × TimeUnit) :=
  match parseNumLit (l.dropWhile isWsB) with
  | none => none
  | some (lit, l1) =>
    let l2 := l1.dropWhile isWsB
    let uc := l2.takeWhile (fun c => !isWsB c)
    let l3 := l2.dropWhile (fun c => !isWsB c)
    if l3.all isWsB then (unitOf uc).map (fun u => (lit.value, u)) else none

/-! ## Helper lemmas -/

/-- `optimize`'s acceptance condition for a unit: the magnitude expressed
in that unit lies in `[1, 1000)`. -/
def satUnit (d : Duration) (u : TimeUnit) : Prop :=
  1 ≤ d.toFloat u ∧ d.toFloat u < 1000

theorem valueNs_mulScalar (a : Duration) (c : ℚ) :
    (a.mulScalar c).valueNs = a.valueNs * c := by
  simp only [Duration.mulScalar, Duration.valueNs]
  ring

theorem valueNs_divScalar (a : Duration) (c : ℚ) :
    (a.divScalar c).valueNs = a.valueNs / c := by
  simp only [Duration.divScalar, Duration.valueNs]
  ring

/-- Case analysis on `optimize`: either it lands on a satisfying unit that
dominates every satisfying unit, or no unit satisfies and it falls back to
nanoseconds. -/
theorem optimize_unit_cases (d : Duration) :
    (satUnit d d.optimize.unit ∧ ∀ u, satUnit d u → u.val ≤ d.optimize.unit.val) ∨
    ((∀ u, ¬ satUnit d u) ∧ d.optimize.unit = .NS) := by
  by_cases h1 : 1 ≤ d.toFloat .KS ∧ d.toFloat .KS < 1000
  · left
    simp only [Duration.optimize, if_pos h1, Duration.unit_inUnit]
    refine ⟨h1, ?_⟩
    intro u _
    cases u <;> norm_num [TimeUnit.val]
  by_cases h2 : 1 ≤ d.toFloat .S ∧ d.toFloat .S < 1000
  · left
    simp only [Duration.optimize, if_neg h1, if_pos h2, Duration.unit_inUnit]
    refine ⟨h2, ?_⟩
    intro u hu
    cases u <;> first
      | exact absurd hu h1
      | norm_num [TimeUnit.val]
  by_cases h3 : 1 ≤ d.toFloat .MS ∧ d.toFloat .MS < 1000
  · left
    simp only [Duration.optimize, if_neg h1, if_neg h2, if_pos h3, Duration.unit_inUnit]
    refine ⟨h3, ?_⟩
    intro u hu
    cases u <;> first
      | exact absurd hu h1
      | exact absurd hu h2
      | norm_num [TimeUnit.val]
  by_cases h4 : 1 ≤ d.toFloat .US ∧ d.toFloat .US < 1000
  · left
    simp only [Duration.optimize, if_neg h1, if_neg h2, if_neg h3, if_pos h4,
      Duration.unit_inUnit]
    refine ⟨h4, ?_⟩
    intro u hu
    cases u <;> first
      | exact absurd hu h1
      | exact absurd hu h2
      | exact absurd hu h3
      | norm_num [TimeUnit.val]
  by_cases h5 : 1 ≤ d.toFloat .NS ∧ d.toFloat .NS < 1000
  · left
    simp only [Duration.optimize, if_neg h1, if_neg h2, if_neg h3, if_neg h4, if_pos h5,
      Duration.unit_inUnit]
    refine ⟨h5, ?_⟩
    intro u hu
    cases u <;> first
      | exact absurd hu h1
      | exact absurd hu h2
      | exact absurd hu h3
      | exact absurd hu h4
      | norm_num [TimeUnit.val]
  · right
    refine ⟨?_, ?_⟩
    · intro u
      cases u <;> assumption
    · simp only [Duration.optimize, if_neg h1, if_neg h2, if_neg h3, if_neg h4, if_neg h5,
        Duration.unit_inUnit]

/-- Quantization error propagation from (scale, offset) to the range
endpoints recovered by `get_range_V`. -/
theorem rangeEndpointErr (oq o sq s n eo es : ℚ)
    (ho : |oq - o| ≤ eo) (hs : |sq - s| ≤ es) :
    |(-oq - sq * n / 2) - (-o - s * n / 2)| ≤ eo + |n| * es / 2 ∧
    |(-oq + sq * n / 2) - (-o + s * n / 2)| ≤ eo + |n| * es / 2 := by
  have hmul : |(sq - s) * n / 2| ≤ |n| * es / 2 := by
    rw [abs_div, abs_mul]
    have : |sq - s| * |n| ≤ es * |n| := mul_le_mul_of_nonneg_right hs (abs_nonneg n)
    calc |sq - s| * |n| / |(2 : ℚ)| = |sq - s| * |n| / 2 := by norm_num
    _ ≤ es * |n| / 2 := by
        apply div_le_div_of_nonneg_right this (by norm_num)
    _ = |n| * es / 2 := by ring
  constructor
  · have he : (-oq - sq * n / 2) - (-o - s * n / 2) = -((oq - o) + (sq - s) * n / 2) := by
      ring
    rw [he, abs_neg]
    calc |(oq - o) + (sq - s) * n / 2| ≤ |oq - o| + |(sq - s) * n / 2| := abs_add _ _
    _ ≤ eo + |n| * es / 2 := add_le_add ho hmul
  · have he : (-oq + sq * n / 2) - (-o + s * n / 2) = -((oq - o) - (sq - s) * n / 2) := by
      ring
    rw [he, abs_neg]
    calc |(oq - o) - (sq - s) * n / 2| ≤ |oq - o| + |(sq - s) * n / 2| := abs_sub _ _
    _ ≤ eo + |n| * es / 2 := add_le_add ho hmul

/-- Correctness of the signed 16-bit little-endian buffer decode: on
success the code list pairs up the byte list. -/
theorem frombufferI16_sound :
    ∀ (data : List ℕ) (codes : List ℤ), frombufferI16 data = some codes →
      codes.length = data.length / 2 ∧
      ∀ j, j < codes.length →
        codes.getD j 0 = int16OfBytes (data.getD (2 * j) 0) (data.getD (2 * j + 1) 0) := by
  intro data
  induction data using frombufferI16.induct with
  | case1 =>
    intro codes h
    simp only [frombufferI16, Option.some.injEq] at h
    subst h
    simp
  | case2 b =>
    intro codes h
    simp only [frombufferI16] at h
    exact Option.noConfusion h
  | case3 b0 b1 rest ih =>
    intro codes h
    simp only [frombufferI16] at h
    cases hr : frombufferI16 rest with
    | none =>
      rw [hr] at h
      simp at h
    | some l =>
      rw [hr] at h
      simp only [Option.map_some', Option.some.injEq] at h
      subst h
      obtain ⟨ihlen, ihidx⟩ := ih l hr
      constructor
      · simp only [List.length_cons, ihlen]
        omega
      · intro j hj
        cases j with
        | zero => simp
        | succ j =>
          have e1 : 2 * (j + 1) = 2 * j + 1 + 1 := by ring
          rw [e1]
          simp only [List.getD_cons_succ]
          exact ihidx j (by simpa using hj)

/-- The polling loop fires at the first poll whose condition holds,
provided no earlier poll fired or hit the timeout check. -/
theorem waitLoop_fired_first (fired : ℕ → Bool) (elapsed : ℕ → ℚ) (ts : ℚ)
    (eot : Bool) :
    ∀ (K fuel k : ℕ), K < fuel → fired (k + K) = true →
      (∀ j, j < K → fired (k + j) = false) →
      (∀ j, j < K → ¬ (0 ≤ ts ∧ ts ≤ elapsed (k + j))) →
      waitLoop fired elapsed ts eot fuel k = .fired := by
  intro K
  induction K with
  | zero =>
    intro fuel k hK hk _ _
    cases fuel with
    | zero => omega
    | succ f =>
      have hf : fired k = true := by simpa using hk
      simp [waitLoop, hf]
  | succ K ih =>
    intro fuel k hK hf hprev htime
    cases fuel with
    | zero => omega
    | succ f =>
      have h0 : fired k = false := by simpa using hprev 0 (Nat.succ_pos K)
      have ht0 : ¬ (0 ≤ ts ∧ ts ≤ elapsed k) := by simpa using htime 0 (Nat.succ_pos K)
      have hstep : k + 1 + K = k + (K + 1) := by omega
      simp only [waitLoop, h0, Bool.false_eq_true, if_false]
      by_cases hts : 0 ≤ ts
      · have hne : ¬ ts ≤ elapsed k := fun hle => ht0 ⟨hts, hle⟩
        rw [if_pos hts, if_neg hne]
        exact ih f (k + 1) (by omega) (by rw [hstep]; exact hf)
          (fun j hj => by rw [show k + 1 + j = k + (j + 1) by omega]; exact hprev (j + 1) (by omega))
          (fun j hj => by rw [show k + 1 + j = k + (j + 1) by omega]; exact htime (j + 1) (by omega))
      · rw [if_neg hts]
        exact ih f (k + 1) (by omega) (by rw [hstep]; exact hf)
          (fun j hj => by rw [show k + 1 + j = k + (j + 1) by omega]; exact hprev (j + 1) (by omega))
          (fun j hj => by rw [show k + 1 + j = k + (j + 1) by omega]; exact htime (j + 1) (by omega))

/-- With a non-negative timeout and a never-firing condition, the loop
exits with the timeout outcome once some poll sees the deadline passed. -/
theorem waitLoop_timeout (fired : ℕ → Bool) (elapsed : ℕ → ℚ) (ts : ℚ)
    (eot : Bool) (hts : 0 ≤ ts) (hnf : ∀ j, fired j = false) :
    ∀ (K fuel k : ℕ), K < fuel → ts ≤ elapsed (k + K) →
      waitLoop fired elapsed ts eot fuel k
        = (if eot then .timeoutError else .timedOut) := by
  intro K
  induction K with
  | zero =>
    intro fuel k hK he
    cases fuel with
    | zero => omega
    | succ f =>
      simp only [waitLoop, hnf k, Bool.false_eq_true, if_false]
      rw [if_pos hts, if_pos (by simpa using he)]
  | succ K ih =>
    intro fuel k hK he
    cases fuel with
    | zero => omega
    | succ f =>
      simp only [waitLoop, hnf k, Bool.false_eq_true, if_false]
      rw [if_pos hts]
      by_cases h0 : ts ≤ elapsed k
      · rw [if_pos h0]
      · rw [if_neg h0]
        exact ih f (k + 1) (by omega) (by rw [show k + 1 + K = k + (K + 1) by omega]; exact he)

/-- With a negative `timeout_s` (the `None` sentinel, or a negative
duration) the loop can never exit through the timeout branch. -/
theorem waitLoop_no_timeout_exit (fired : ℕ → Bool) (elapsed : ℕ → ℚ) (ts : ℚ)
    (eot : Bool) (hts : ts < 0) :
    ∀ fuel k, waitLoop fired elapsed ts eot fuel k ≠ .timedOut ∧
      waitLoop fired elapsed ts eot fuel k ≠ .timeoutError := by
  intro fuel
  induction fuel with
  | zero =>
    intro k
    constructor <;> simp [waitLoop]
  | succ f ih =>
    intro k
    cases hf : fired k with
    | true => constructor <;> simp [waitLoop, hf]
    | false =>
      simp only [waitLoop, hf, Bool.false_eq_true, if_false]
      rw [if_neg (not_le.mpr hts)]
      exact ih (k + 1)

/-- With a negative `timeout_s` and a never-firing condition, the loop is
still polling after any number of iterations. -/
theorem waitLoop_polling (fired : ℕ → Bool) (elapsed : ℕ → ℚ) (ts : ℚ)
    (eot : Bool) (hts : ts < 0) (hnf : ∀ j, fired j = false) :
    ∀ fuel k, waitLoop fired elapsed ts eot fuel k = .polling := by
  intro fuel
  induction fuel with
  | zero => intro k; rfl
  | succ f ih =>
    intro k
    simp only [waitLoop, hnf k, Bool.false_eq_true, if_false]
    rw [if_neg (not_le.mpr hts)]
    exact ih (k + 1)

/-! ### Scanner lemmas for the `Duration` text parser -/

theorem scan_append_all {α : Type} (p : α → Bool) (a b : List α)
    (ha : ∀ c ∈ a, p c = true) :
    (a ++ b).takeWhile p = a ++ b.takeWhile p ∧
    (a ++ b).dropWhile p = b.dropWhile p := by
  induction a with
  | nil => simp
  | cons c a ih =>
    have hc : p c = true := ha c (List.mem_cons_self c a)
    obtain ⟨h1, h2⟩ := ih (fun x hx => ha x (List.mem_cons_of_mem c hx))
    simp [List.takeWhile_cons, List.dropWhile_cons, hc, h1, h2]

theorem scan_head_stop {α : Type} (p : α → Bool) (b : List α)
    (hb : ∀ c, b.head? = some c → p c = false) :
    b.takeWhile p = [] ∧ b.dropWhile p = b := by
  cases b with
  | nil => simp
  | cons c t =>
    have hc : p c = false := hb c rfl
    simp [List.takeWhile_cons, List.dropWhile_cons, hc]

theorem scan_split {α : Type} (p : α → Bool) (a b : List α)
    (ha : ∀ c ∈ a, p c = true) (hb : ∀ c, b.head? = some c → p c = false) :
    (a ++ b).takeWhile p = a ∧ (a ++ b).dropWhile p = b := by
  obtain ⟨h1, h2⟩ := scan_append_all p a b ha
  obtain ⟨h3, h4⟩ := scan_head_stop p b hb
  constructor
  · rw [h1, h3, List.append_nil]
  · rw [h2, h4]

theorem digit_char_facts {c : Char} (h : c.isDigit = true) :
    c ≠ '-' ∧ c ≠ '.' ∧ c ≠ 'e' ∧ c ≠ 'E' ∧ c ≠ '+' ∧ isWsB c = false := by
  have hw : isWsB c = false := by
    cases hw : isWsB c with
    | false => rfl
    | true =>
      exfalso
      simp only [isWsB, Bool.or_eq_true, beq_iff_eq] at hw
      rcases hw with ((((((((hw | hw) | hw) | hw) | hw) | hw) | hw) | hw) | hw) | hw <;>
        subst hw <;> exact absurd h (by decide)
  refine ⟨?_, ?_, ?_, ?_, ?_, hw⟩ <;>
    (rintro rfl; exact absurd h (by decide))

theorem ws_char_facts {c : Char} (h : isWsB c = true) :
    c.isDigit = false ∧ c ≠ '-' ∧ c ≠ '.' ∧ c ≠ 'e' ∧ c ≠ 'E' := by
  simp only [isWsB, Bool.or_eq_true, beq_iff_eq] at h
  rcases h with ((((((((h | h) | h) | h) | h) | h) | h) | h) | h) | h <;> subst h <;>
    exact ⟨by decide, by decide, by decide, by decide, by decide⟩

theorem parseFracPart_sound (l : List Char) (fo : Option (List Char))
    (rest : List Char) (h : parseFracPart l = (fo, rest)) :
    l = NumLit.frText fo ++ rest ∧
    ∀ f ∈ fo, f ≠ [] ∧ ∀ c ∈ f, c.isDigit = true := by
  cases l with
  | nil =>
    have he : parseFracPart ([] : List Char) = (none, []) := rfl
    rw [he] at h
    rcases h with ⟨rfl, rfl⟩ | _
    · simp [NumLit.frText]
  | cons a t =>
    by_cases ha : a = '.'
    · subst ha
      unfold parseFracPart at h
      rw [show ((('.' :: t).head? == some '.')) = true from rfl] at h
      simp only [if_true, List.tail_cons] at h
      cases hemp : (t.takeWhile Char.isDigit).isEmpty with
      | true =>
        rw [hemp] at h
        simp only [if_true] at h
        rcases Prod.mk.inj h with ⟨rfl, rfl⟩
        simp [NumLit.frText]
      | false =>
        rw [hemp] at h
        simp only [Bool.false_eq_true, if_false] at h
        rcases Prod.mk.inj h with ⟨rfl, rfl⟩
        refine ⟨?_, ?_⟩
        · simp only [NumLit.frText, List.cons_append,
            List.takeWhile_append_dropWhile]
        · intro f hf
          rcases Option.some.inj hf.symm with rfl
          refine ⟨?_, fun c hc => List.mem_takeWhile_imp hc⟩
          intro hnil
          rw [hnil] at hemp
          simp at hemp
    · have hb : (((a :: t).head?) == some '.') = false := by
        simp [ha]
      unfold parseFracPart at h
      rw [hb] at h
      simp only [Bool.false_eq_true, if_false] at h
      rcases Prod.mk.inj h with ⟨rfl, rfl⟩
      simp [NumLit.frText]

theorem parseFracPart_complete (fo : Option (List Char)) (rest : List Char)
    (hfo : ∀ f ∈ fo, f ≠ [] ∧ ∀ c ∈ f, c.isDigit = true)
    (hrest : ∀ c, rest.head? = some c → c.isDigit = false ∧ c ≠ '.') :
    parseFracPart (NumLit.frText fo ++ rest) = (fo, rest) := by
  cases fo with
  | none =>
    simp only [NumLit.frText, List.nil_append]
    have hb : (rest.head? == some '.') = false := by
      cases rest with
      | nil => rfl
      | cons c t =>
        have hc := (hrest c rfl).2
        simp [hc]
    unfold parseFracPart
    rw [hb]
    simp
  | some f =>
    obtain ⟨hne, hdig⟩ := hfo f rfl
    obtain ⟨htw, hdw⟩ := scan_split Char.isDigit f rest hdig
      (fun c hc => (hrest c hc).1)
    simp only [NumLit.frText, List.cons_append]
    unfold parseFracPart
    rw [show ((('.' :: (f ++ rest)).head?) == some '.') = true from rfl]
    simp only [if_true, List.tail_cons]
    rw [htw, hdw]
    have hne' : f.isEmpty = false := by
      cases f with
      | nil => exact absurd rfl hne
      | cons x xs => rfl
    rw [hne']
    simp

theorem parseExpPart_sound (l : List Char)
    (eo : Option (Bool × Option Bool × List Char)) (rest : List Char)
    (h : parseExpPart l = (eo, rest)) :
    l = NumLit.exText eo ++ rest ∧
    ∀ e ∈ eo, e.2.2 ≠ [] ∧ ∀ c ∈ e.2.2, c.isDigit = true := by
  cases l with
  | nil =>
    have he : parseExpPart ([] : List Char) = (none, []) := rfl
    rw [he] at h
    rcases Prod.mk.inj h with ⟨rfl, rfl⟩
    simp [NumLit.exText]
  | cons a r =>
    by_cases hae : a = 'e' ∨ a = 'E'
    · have hcond : (((a :: r).head? == some 'e') || ((a :: r).head? == some 'E')) = true := by
        rcases hae with rfl | rfl <;> rfl
      have hch : (if ((a :: r).head? == some 'E') = true then 'E' else 'e') = a := by
        rcases hae with rfl | rfl <;> rfl
      unfold parseExpPart at h
      rw [hcond] at h
      simp only [if_true, List.tail_cons] at h
      cases r with
      | nil =>
        simp only [List.head?_nil, List.takeWhile_nil, List.isEmpty_nil, if_true] at h
        rcases Prod.mk.inj h with ⟨rfl, rfl⟩
        simp [NumLit.exText]
      | cons b r2 =>
        by_cases hbp : b = '+'
        · subst hbp
          rw [show ((('+' :: r2).head? == some '+')) = true from rfl] at h
          simp only [if_true, Option.isSome_some, List.tail_cons] at h
          cases hemp : (r2.takeWhile Char.isDigit).isEmpty with
          | true =>
            rw [hemp] at h
            simp only [if_true] at h
            rcases Prod.mk.inj h with ⟨rfl, rfl⟩
            simp [NumLit.exText]
          | false =>
            rw [hemp] at h
            simp only [Bool.false_eq_true, if_false] at h
            rcases Prod.mk.inj h with ⟨rfl, rfl⟩
            refine ⟨?_, ?_⟩
            · simp only [NumLit.exText, hch, List.cons_append, List.nil_append,
                List.append_assoc, List.takeWhile_append_dropWhile]
            · intro e he
              rcases Option.some.inj he.symm with rfl
              refine ⟨?_, fun c hc => List.mem_takeWhile_imp hc⟩
              intro hnil
              dsimp only at hnil
              rw [hnil] at hemp
              simp at hemp
        · by_cases hbm : b = '-'
          · subst hbm
            simp only [show ((('-' :: r2).head? == some '+')) = false from rfl,
              show ((('-' :: r2).head? == some '-')) = true from rfl] at h
            simp only [Bool.false_eq_true, if_false, if_true, Option.isSome_some,
              List.tail_cons] at h
            cases hemp : (r2.takeWhile Char.isDigit).isEmpty with
            | true =>
              rw [hemp] at h
              simp only [if_true] at h
              rcases Prod.mk.inj h with ⟨rfl, rfl⟩
              simp [NumLit.exText]
            | false =>
              rw [hemp] at h
              simp only [Bool.false_eq_true, if_false] at h
              rcases Prod.mk.inj h with ⟨rfl, rfl⟩
              refine ⟨?_, ?_⟩
              · simp only [NumLit.exText, hch, List.cons_append, List.nil_append,
                  List.append_assoc, List.takeWhile_append_dropWhile]
              · intro e he
                rcases Option.some.inj he.symm with rfl
                refine ⟨?_, fun c hc => List.mem_takeWhile_imp hc⟩
                intro hnil
                dsimp only at hnil
                rw [hnil] at hemp
                simp at hemp
          · have hbp' : (((b :: r2).head? == some '+')) = false := by simp [hbp]
            have hbm' : (((b :: r2).head? == some '-')) = false := by simp [hbm]
            simp only [hbp', hbm'] at h
            simp only [Bool.false_eq_true, if_false, Option.isSome_none] at h
            cases hemp : ((b :: r2).takeWhile Char.isDigit).isEmpty with
            | true =>
              rw [hemp] at h
              simp only [if_true] at h
              rcases Prod.mk.inj h with ⟨rfl, rfl⟩
              simp [NumLit.exText]
            | false =>
              rw [hemp] at h
              simp only [Bool.false_eq_true, if_false] at h
              rcases Prod.mk.inj h with ⟨rfl, rfl⟩
              refine ⟨?_, ?_⟩
              · simp only [NumLit.exText, hch, List.cons_append, List.nil_append,
                  List.takeWhile_append_dropWhile]
              · intro e he
                rcases Option.some.inj he.symm with rfl
                refine ⟨?_, fun c hc => List.mem_takeWhile_imp hc⟩
                intro hnil
                dsimp only at hnil
                rw [hnil] at hemp
                simp at hemp
    · push_neg at hae
      have hcond : (((a :: r).head? == some 'e') || ((a :: r).head? == some 'E')) = false := by
        simp [hae.1, hae.2]
      unfold parseExpPart at h
      rw [hcond] at h
      simp only [Bool.false_eq_true, if_false] at h
      rcases Prod.mk.inj h with ⟨rfl, rfl⟩
      simp [NumLit.exText]

theorem parseExpPart_complete (eo : Option (Bool × Option Bool × List Char))
    (rest : List Char)
    (heo : ∀ e ∈ eo, e.2.2 ≠ [] ∧ ∀ c ∈ e.2.2, c.isDigit = true)
    (hrest : ∀ c, rest.head? = some c → c.isDigit = false ∧ c ≠ 'e' ∧ c ≠ 'E') :
    parseExpPart (NumLit.exText eo ++ rest) = (eo, rest) := by
  cases eo with
  | none =>
    simp only [NumLit.exText, List.nil_append]
    have hb : ((rest.head? == some 'e') || (rest.head? == some 'E')) = false := by
      cases rest with
      | nil => rfl
      | cons c t =>
        obtain ⟨_, hce, hcE⟩ := hrest c rfl
        simp [hce, hcE]
    unfold parseExpPart
    rw [hb]
    simp
  | some e =>
    obtain ⟨uE, sgn, eds⟩ := e
    obtain ⟨hne, hdig⟩ := heo _ rfl
    obtain ⟨d, ds, rfl⟩ : ∃ d ds, eds = d :: ds := by
      cases eds with
      | nil => exact absurd rfl hne
      | cons d ds => exact ⟨d, ds, rfl⟩
    have hd : d.isDigit = true := hdig d (List.mem_cons_self d ds)
    obtain ⟨htw, hdw⟩ := scan_split Char.isDigit (d :: ds) rest hdig
      (fun c hc => (hrest c hc).1)
    have htw' : List.takeWhile Char.isDigit (d :: (ds ++ rest)) = d :: ds := by
      simpa using htw
    have hdw' : List.dropWhile Char.isDigit (d :: (ds ++ rest)) = rest := by
      simpa using hdw
    have hdp : ((some d == some '+')) = false := by
      simp [(digit_char_facts hd).2.2.2.2.1]
    have hdm : ((some d == some '-')) = false := by
      simp [(digit_char_facts hd).1]
    have hee : ((some 'e' == some 'e') : Bool) = true := by decide
    have heE : ((some 'e' == some 'E') : Bool) = false := by decide
    have hEe : ((some 'E' == some 'e') : Bool) = false := by decide
    have hEE : ((some 'E' == some 'E') : Bool) = true := by decide
    have hpp : ((some '+' == some '+') : Bool) = true := by decide
    have hmp : ((some '-' == some '+') : Bool) = false := by decide
    have hmm : ((some '-' == some '-') : Bool) = true := by decide
    cases sgn with
    | none =>
      cases uE <;>
        simp [parseExpPart, NumLit.exText, List.cons_append, List.head?_cons,
          List.tail_cons, hee, heE, hEe, hEE, hdp, hdm, htw', hdw']
    | some s =>
      cases s <;> cases uE <;>
        simp [parseExpPart, NumLit.exText, List.cons_append, List.head?_cons,
          List.tail_cons, hee, heE, hEe, hEE, hpp, hmp, hmm, htw', hdw']

/-- What may legally follow the `value` group: nothing, whitespace, or a
unit — never a digit, a dot, or an exponent letter. -/
def restOK (rest : List Char) : Prop :=
  ∀ c, rest.head? = some c → c.isDigit = false ∧ c ≠ '.' ∧ c ≠ 'e' ∧ c ≠ 'E'

theorem parseNumLit_sound (l : List Char) (lit : NumLit) (rest : List Char)
    (h : parseNumLit l = some (lit, rest)) :
    lit.WF ∧ l = lit.render ++ rest := by
  cases hneg : (l.head? == some '-') with
  | true =>
    have hl : l = '-' :: l.tail := by
      cases l with
      | nil => simp at hneg
      | cons a t =>
        have ha : a = '-' := by simpa using hneg
        subst ha
        rfl
    simp only [parseNumLit, hneg, if_true] at h
    cases hemp : (l.tail.takeWhile Char.isDigit).isEmpty with
    | true =>
      rw [hemp] at h
      simp at h
    | false =>
      rw [hemp] at h
      simp only [Bool.false_eq_true, if_false, Option.some.injEq] at h
      rcases hfp : parseFracPart (l.tail.dropWhile Char.isDigit) with ⟨fo, r1⟩
      rcases hep : parseExpPart r1 with ⟨eoo, r2⟩
      rw [hfp, hep] at h
      dsimp only at h
      rcases Prod.mk.inj h with ⟨rfl, rfl⟩
      obtain ⟨hfr1, hfr2⟩ := parseFracPart_sound _ _ _ hfp
      obtain ⟨hex1, hex2⟩ := parseExpPart_sound _ _ _ hep
      refine ⟨⟨?_, ?_, hfr2, hex2⟩, ?_⟩
      · intro hnil
        dsimp only at hnil
        rw [hnil] at hemp
        simp at hemp
      · exact fun c hc => List.mem_takeWhile_imp hc
      · calc l = '-' :: l.tail := hl
        _ = '-' :: (l.tail.takeWhile Char.isDigit ++ l.tail.dropWhile Char.isDigit) := by
            rw [List.takeWhile_append_dropWhile]
        _ = '-' :: (l.tail.takeWhile Char.isDigit
              ++ (NumLit.frText fo ++ (NumLit.exText eoo ++ r2))) := by
            rw [hfr1, hex1]
        _ = NumLit.render ⟨true, l.tail.takeWhile Char.isDigit, fo, eoo⟩ ++ r2 := by
            simp [NumLit.render, List.append_assoc]
  | false =>
    simp only [parseNumLit, hneg, Bool.false_eq_true, if_false] at h
    cases hemp : (l.takeWhile Char.isDigit).isEmpty with
    | true =>
      rw [hemp] at h
      simp at h
    | false =>
      rw [hemp] at h
      simp only [Bool.false_eq_true, if_false, Option.some.injEq] at h
      rcases hfp : parseFracPart (l.dropWhile Char.isDigit) with ⟨fo, r1⟩
      rcases hep : parseExpPart r1 with ⟨eoo, r2⟩
      rw [hfp, hep] at h
      dsimp only at h
      rcases Prod.mk.inj h with ⟨rfl, rfl⟩
      obtain ⟨hfr1, hfr2⟩ := parseFracPart_sound _ _ _ hfp
      obtain ⟨hex1, hex2⟩ := parseExpPart_sound _ _ _ hep
      refine ⟨⟨?_, ?_, hfr2, hex2⟩, ?_⟩
      · intro hnil
        dsimp only at hnil
        rw [hnil] at hemp
        simp at hemp
      · exact fun c hc => List.mem_takeWhile_imp hc
      · calc l = l.takeWhile Char.isDigit ++ l.dropWhile Char.isDigit :=
              (List.takeWhile_append_dropWhile _ _).symm
        _ = l.takeWhile Char.isDigit
              ++ (NumLit.frText fo ++ (NumLit.exText eoo ++ r2)) := by
            rw [hfr1, hex1]
        _ = NumLit.render ⟨false, l.takeWhile Char.isDigit, fo, eoo⟩ ++ r2 := by
            simp [NumLit.render, List.append_assoc]

theorem parseNumLit_complete (lit : NumLit) (rest : List Char)
    (hWF : lit.WF) (hrest : restOK rest) :
    parseNumLit (lit.render ++ rest) = some (lit, rest) := by
  obtain ⟨hds_ne, hds_dig, hfrWF, hexWF⟩ := hWF
  obtain ⟨d, ds', hds⟩ : ∃ d ds', lit.ds = d :: ds' := by
    cases hds : lit.ds with
    | nil => exact absurd hds hds_ne
    | cons d ds' => exact ⟨d, ds', rfl⟩
  have hd : d.isDigit = true := hds_dig d (by rw [hds]; exact List.mem_cons_self d ds')
  -- what follows the integer digits
  have hafter : ∀ c, (NumLit.frText lit.fr ++ (NumLit.exText lit.ex ++ rest)).head? = some c →
      Char.isDigit c = false := by
    intro c hc
    cases hfr : lit.fr with
    | some f =>
      rw [hfr] at hc
      simp only [NumLit.frText, List.cons_append, List.head?_cons,
        Option.some.injEq] at hc
      subst hc
      decide
    | none =>
      rw [hfr] at hc
      simp only [NumLit.frText, List.nil_append] at hc
      cases hex : lit.ex with
      | some e =>
        rw [hex] at hc
        obtain ⟨uE, sgn, eds⟩ := e
        cases uE <;>
          (simp only [NumLit.exText, List.cons_append, List.head?_cons,
            Option.some.injEq, if_true, Bool.false_eq_true, if_false] at hc
           subst hc
           decide)
      | none =>
        rw [hex] at hc
        simp only [NumLit.exText, List.nil_append] at hc
        exact (hrest c hc).1
  have hsplit := scan_split Char.isDigit lit.ds
    (NumLit.frText lit.fr ++ (NumLit.exText lit.ex ++ rest)) hds_dig hafter
  have hfrac : parseFracPart (NumLit.frText lit.fr ++ (NumLit.exText lit.ex ++ rest))
      = (lit.fr, NumLit.exText lit.ex ++ rest) := by
    apply parseFracPart_complete _ _ hfrWF
    intro c hc
    cases hex : lit.ex with
    | some e =>
      rw [hex] at hc
      obtain ⟨uE, sgn, eds⟩ := e
      cases uE <;>
        (simp only [NumLit.exText, List.cons_append, List.head?_cons,
          Option.some.injEq, if_true, Bool.false_eq_true, if_false] at hc
         subst hc
         exact ⟨by decide, by decide⟩)
    | none =>
      rw [hex] at hc
      simp only [NumLit.exText, List.nil_append] at hc
      exact ⟨(hrest c hc).1, (hrest c hc).2.1⟩
  have hexp : parseExpPart (NumLit.exText lit.ex ++ rest) = (lit.ex, rest) := by
    apply parseExpPart_complete _ _ hexWF
    intro c hc
    exact ⟨(hrest c hc).1, (hrest c hc).2.2.1, (hrest c hc).2.2.2⟩
  cases hneg : lit.neg with
  | true =>
    have hrender : lit.render ++ rest
        = '-' :: (lit.ds ++ (NumLit.frText lit.fr ++ (NumLit.exText lit.ex ++ rest))) := by
      simp [NumLit.render, hneg, List.append_assoc]
    rw [hrender]
    have hb : ((('-' :: (lit.ds ++ (NumLit.frText lit.fr
        ++ (NumLit.exText lit.ex ++ rest)))).head? == some '-')) = true := rfl
    simp only [parseNumLit, hb, if_true, List.tail_cons]
    rw [hsplit.1, hsplit.2]
    have hempty : lit.ds.isEmpty = false := by
      rw [hds]
      rfl
    rw [hempty]
    simp only [Bool.false_eq_true, if_false, hfrac, hexp]
    rw [← hneg]
  | false =>
    have hrender : lit.render ++ rest
        = lit.ds ++ (NumLit.frText lit.fr ++ (NumLit.exText lit.ex ++ rest)) := by
      simp [NumLit.render, hneg, List.append_assoc]
    rw [hrender]
    have hb : (((lit.ds ++ (NumLit.frText lit.fr
        ++ (NumLit.exText lit.ex ++ rest))).head? == some '-')) = false := by
      rw [hds]
      simp only [List.cons_append, List.head?_cons]
      simp [(digit_char_facts hd).1]
    simp only [parseNumLit, hb, Bool.false_eq_true, if_false]
    rw [hsplit.1, hsplit.2]
    have hempty : lit.ds.isEmpty = false := by
      rw [hds]
      rfl
    rw [hempty]
    simp only [Bool.false_eq_true, if_false, hfrac, hexp]
    rw [← hneg]

theorem unitOf_render (u : TimeUnit) (upper : Bool) :
    unitOf (unitText u upper) = some u := by
  cases u <;> cases upper <;> rfl

theorem unitOf_some (uc : List Char) (u : TimeUnit) (h : unitOf uc = some u) :
    uc = unitText u false ∨ uc = unitText u true := by
  unfold unitOf at h
  split at h
  case isTrue hc =>
    rcases Option.some.inj h with rfl
    exact hc
  case isFalse =>
    split at h
    case isTrue hc =>
      rcases Option.some.inj h with rfl
      exact hc
    case isFalse =>
      split at h
      case isTrue hc =>
        rcases Option.some.inj h with rfl
        exact hc
      case isFalse =>
        split at h
        case isTrue hc =>
          rcases Option.some.inj h with rfl
          exact hc
        case isFalse =>
          split at h
          case isTrue hc =>
            rcases Option.some.inj h with rfl
            exact hc
          case isFalse => exact Option.noConfusion h

theorem unitText_not_ws (u : TimeUnit) (upper : Bool) :
    ∀ c ∈ unitText u upper, (!isWsB c) = true := by
  cases u <;> cases upper <;> decide

theorem unitText_head (u : TimeUnit) (upper : Bool) :
    ∀ c, (unitText u upper).head? = some c →
      c.isDigit = false ∧ c ≠ '.' ∧ c ≠ 'e' ∧ c ≠ 'E' ∧ isWsB c = false := by
  cases u <;> cases upper <;>
    (intro c hc
     simp only [unitText, List.head?_cons, Option.some.injEq] at hc
     subst hc
     decide)

theorem unitText_cons (u : TimeUnit) (upper : Bool) :
    ∃ c0 ct, unitText u upper = c0 :: ct := by
  cases u <;> cases upper <;> exact ⟨_, _, rfl⟩

/-- A list of whitespace characters. -/
def wsOnly (l : List Char) : Prop := ∀ c ∈ l, isWsB c = true

/-- The specification-side language: the text decomposes into optional
whitespace, a number literal, optional whitespace, a unit written either
all-lowercase or all-uppercase, and optional whitespace; `q` is the number
the literal denotes. -/
def IsDurationText (l : List Char) (q : ℚ) (u : TimeUnit) : Prop :=
  ∃ (ws1 ws2 ws3 : List Char) (lit : NumLit) (upper : Bool),
    lit.WF ∧ wsOnly ws1 ∧ wsOnly ws2 ∧ wsOnly ws3 ∧
    l = ws1 ++ lit.render ++ ws2 ++ unitText u upper ++ ws3 ∧
    q = lit.value

/-! ## Claims -/

/-- C3 counterexample: the unit written in mixed case, as in `"1nS"`, is
rejected by `Duration.value_of` (the regex only lists all-lowercase and
all-uppercase alternatives), although the claim promises that any mixture
of letter cases parses. The repository's own test asserts the same:
`Duration.value_of("1 Ks")` raises. -/
theorem durationMatch_mixed_case_cex :
    durationMatch "1nS".data = none ∧ durationMatch "1Ks".data = none := by
  constructor <;> decide

/-- C3 (amended): on ASCII text — the scope on which the embedded scanner
coincides with the source's Unicode regex, whose `\s`/`\d` additionally
accept non-ASCII whitespace and digits — `Duration.value_of` parsing
succeeds exactly on strings of the form `<ws><number><ws><unit><ws>` where
the number is `-?digits(.digits)?([eE][+-]?digits)?` and the unit is one
of ns, us, ms, s, ks written entirely in lowercase or entirely in
uppercase (mixed case fails, and only `-` is accepted as sign); on success
the resulting Duration carries the number's value and the matched unit. -/
theorem durationMatch_iff (l : List Char) (q : ℚ) (u : TimeUnit)
    (hascii : ∀ c ∈ l, c.toNat < 128) :
    durationMatch l = some (q, u) ↔ IsDurationText l q u := by
  constructor
  · intro h
    unfold durationMatch at h
    rcases hp : parseNumLit (l.dropWhile isWsB) with _ | ⟨lit, l1⟩
    · rw [hp] at h
      dsimp only at h
      exact Option.noConfusion h
    · rw [hp] at h
      dsimp only at h
      cases hall : (((l1.dropWhile isWsB).dropWhile fun c => !isWsB c).all isWsB) with
      | false =>
        rw [hall] at h
        simp at h
      | true =>
        rw [hall] at h
        simp only [if_true] at h
        rcases hu : unitOf ((l1.dropWhile isWsB).takeWhile fun c => !isWsB c)
          with _ | u'
        · rw [hu] at h
          simp at h
        · rw [hu] at h
          simp only [Option.map_some', Option.some.injEq] at h
          rcases Prod.mk.inj h with ⟨rfl, rfl⟩
          obtain ⟨hWF, hsplit⟩ := parseNumLit_sound _ _ _ hp
          rcases unitOf_some _ _ hu with hcase | hcase
          · refine ⟨l.takeWhile isWsB, l1.takeWhile isWsB,
              (l1.dropWhile isWsB).dropWhile (fun c => !isWsB c), lit, false, hWF,
              fun c hc => List.mem_takeWhile_imp hc,
              fun c hc => List.mem_takeWhile_imp hc,
              fun c hc => List.all_eq_true.mp hall c hc, ?_, rfl⟩
            calc l = l.takeWhile isWsB ++ l.dropWhile isWsB :=
                  (List.takeWhile_append_dropWhile _ _).symm
              _ = l.takeWhile isWsB ++ (lit.render ++ l1) := by rw [hsplit]
              _ = l.takeWhile isWsB ++ (lit.render ++ (l1.takeWhile isWsB ++
                    (unitText u' false ++
                     ((l1.dropWhile isWsB).dropWhile fun c => !isWsB c)))) := by
                  rw [← hcase]
                  conv_rhs => rw [List.takeWhile_append_dropWhile,
                    List.takeWhile_append_dropWhile]
              _ = l.takeWhile isWsB ++ lit.render ++ l1.takeWhile isWsB ++
                    unitText u' false ++
                    ((l1.dropWhile isWsB).dropWhile fun c => !isWsB c) := by
                  simp [List.append_assoc]
          · refine ⟨l.takeWhile isWsB, l1.takeWhile isWsB,
              (l1.dropWhile isWsB).dropWhile (fun c => !isWsB c), lit, true, hWF,
              fun c hc => List.mem_takeWhile_imp hc,
              fun c hc => List.mem_takeWhile_imp hc,
              fun c hc => List.all_eq_true.mp hall c hc, ?_, rfl⟩
            calc l = l.takeWhile isWsB ++ l.dropWhile isWsB :=
                  (List.takeWhile_append_dropWhile _ _).symm
              _ = l.takeWhile isWsB ++ (lit.render ++ l1) := by rw [hsplit]
              _ = l.takeWhile isWsB ++ (lit.render ++ (l1.takeWhile isWsB ++
                    (unitText u' true ++
                     ((l1.dropWhile isWsB).dropWhile fun c => !isWsB c)))) := by
                  rw [← hcase]
                  conv_rhs => rw [List.takeWhile_append_dropWhile,
                    List.takeWhile_append_dropWhile]
              _ = l.takeWhile isWsB ++ lit.render ++ l1.takeWhile isWsB ++
                    unitText u' true ++
                    ((l1.dropWhile isWsB).dropWhile fun c => !isWsB c) := by
                  simp [List.append_assoc]
  · rintro ⟨ws1, ws2, ws3, lit, upper, hWF, hws1, hws2, hws3, rfl, rfl⟩
    have hassoc : ws1 ++ lit.render ++ ws2 ++ unitText u upper ++ ws3
        = ws1 ++ (lit.render ++ (ws2 ++ (unitText u upper ++ ws3))) := by
      simp [List.append_assoc]
    rw [hassoc]
    obtain ⟨hds_ne, hds_dig, -, -⟩ := id hWF
    obtain ⟨d, ds', hds⟩ : ∃ d ds', lit.ds = d :: ds' := by
      cases hdsc : lit.ds with
      | nil => exact absurd hdsc hds_ne
      | cons d ds' => exact ⟨d, ds', rfl⟩
    have hd : d.isDigit = true := hds_dig d (by rw [hds]; exact List.mem_cons_self d ds')
    obtain ⟨c0, ct, hut⟩ := unitText_cons u upper
    have hc0 := unitText_head u upper c0 (by rw [hut]; rfl)
    have hrestOK : restOK (ws2 ++ (unitText u upper ++ ws3)) := by
      intro c hc
      cases ws2 with
      | cons w ws2' =>
        simp only [List.cons_append, List.head?_cons, Option.some.injEq] at hc
        subst hc
        obtain ⟨h1, _, h3, h4, h5⟩ := ws_char_facts (hws2 _ (List.mem_cons_self _ ws2'))
        exact ⟨h1, h3, h4, h5⟩
      | nil =>
        rw [List.nil_append, hut] at hc
        simp only [List.cons_append, List.head?_cons, Option.some.injEq] at hc
        subst hc
        exact ⟨hc0.1, hc0.2.1, hc0.2.2.1, hc0.2.2.2.1⟩
    have hrender_head : ∀ c,
        (lit.render ++ (ws2 ++ (unitText u upper ++ ws3))).head? = some c →
        isWsB c = false := by
      intro c hc
      cases hneg : lit.neg with
      | true =>
        have hr : lit.render = '-' :: (lit.ds
            ++ (NumLit.frText lit.fr ++ NumLit.exText lit.ex)) := by
          simp [NumLit.render, hneg, List.append_assoc]
        rw [hr] at hc
        simp only [List.cons_append, List.head?_cons, Option.some.injEq] at hc
        subst hc
        decide
      | false =>
        have hr : lit.render = d :: (ds'
            ++ (NumLit.frText lit.fr ++ NumLit.exText lit.ex)) := by
          simp [NumLit.render, hneg, hds, List.append_assoc]
        rw [hr] at hc
        simp only [List.cons_append, List.head?_cons, Option.some.injEq] at hc
        subst hc
        exact (digit_char_facts hd).2.2.2.2.2
    have hdrop1 : (ws1 ++ (lit.render ++ (ws2 ++ (unitText u upper ++ ws3)))).dropWhile isWsB
        = lit.render ++ (ws2 ++ (unitText u upper ++ ws3)) :=
      (scan_split isWsB ws1 _ hws1 hrender_head).2
    have hnum : parseNumLit (lit.render ++ (ws2 ++ (unitText u upper ++ ws3)))
        = some (lit, ws2 ++ (unitText u upper ++ ws3)) :=
      parseNumLit_complete lit _ hWF hrestOK
    have hdrop2 : (ws2 ++ (unitText u upper ++ ws3)).dropWhile isWsB
        = unitText u upper ++ ws3 := by
      refine (scan_split isWsB ws2 _ hws2 ?_).2
      intro c hc
      rw [hut] at hc
      simp only [List.cons_append, List.head?_cons, Option.some.injEq] at hc
      subst hc
      exact hc0.2.2.2.2
    have hscan3 := scan_split (fun c => !isWsB c) (unitText u upper) ws3
      (unitText_not_ws u upper)
      (fun c hc => by
        cases ws3 with
        | nil => simp at hc
        | cons w t =>
          simp only [List.head?_cons, Option.some.injEq] at hc
          subst hc
          simp [hws3 _ (List.mem_cons_self _ t)])
    unfold durationMatch
    rw [hdrop1, hnum]
    dsimp only
    rw [hdrop2, hscan3.1, hscan3.2,
      show ws3.all isWsB = true from List.all_eq_true.mpr hws3]
    simp only [if_true, unitOf_render, Option.map_some']

/-- C3 witness: `" -2.5e-3 MS "` is ASCII and parses to magnitude −0.0025
in milliseconds, so the corresponding decomposition exists. -/
theorem durationMatch_iff_witness :
    (∀ c ∈ " -2.5e-3 MS ".data, c.toNat < 128) ∧
    IsDurationText " -2.5e-3 MS ".data (-(1/400) : ℚ) .MS :=
  ⟨by decide,
   (durationMatch_iff " -2.5e-3 MS ".data (-(1/400)) .MS (by decide)).mp (by
    unfold durationMatch
    rw [show parseNumLit (" -2.5e-3 MS ".data.dropWhile isWsB)
        = some (⟨true, ['2'], some ['5'], some (false, some true, ['3'])⟩,
            [' ', 'M', 'S', ' ']) from by decide]
    dsimp only
    rw [show (([' ', 'M', 'S', ' '] : List Char).dropWhile isWsB)
        = ['M', 'S', ' '] from by decide,
      show ((['M', 'S', ' '] : List Char).takeWhile fun c => !isWsB c)
        = ['M', 'S'] from by decide,
      show ((['M', 'S', ' '] : List Char).dropWhile fun c => !isWsB c)
        = [' '] from by decide,
      show (([' '] : List Char).all isWsB) = true from by decide,
      show unitOf ['M', 'S'] = some .MS from by decide]
    simp only [if_true, Option.map_some', Option.some.injEq, Prod.mk.injEq]
    refine ⟨?_, trivial⟩
    norm_num [NumLit.value, show digitsVal ['2'] = 2 from by decide,
      show digitsVal ['5'] = 5 from by decide,
      show digitsVal ['3'] = 3 from by decide])⟩

/-- C4 counterexample: the 1-picosecond epsilon equality of
`Duration.__eq__` is not transitive — 0 ns equals 0.0009 ns and 0.0009 ns
equals 0.0018 ns, yet 0 ns does not equal 0.0018 ns. -/
theorem duration_eq_not_transitive_cex :
    Duration.eqB ⟨0, .NS⟩ ⟨9/10000, .NS⟩ = true ∧
    Duration.eqB ⟨9/10000, .NS⟩ ⟨18/10000, .NS⟩ = true ∧
    Duration.eqB ⟨0, .NS⟩ ⟨18/10000, .NS⟩ = false := by
  norm_num [Duration.eqB, Duration.ltB, Duration.sub, Duration.absD, Duration.optimize,
    Duration.toFloat, Duration.inUnit, Duration.valueNs, Duration.onePicosecond,
    TimeUnit.val, abs_lt]

/-- C4 (amended): `Duration.__eq__` under the 1-picosecond epsilon is
reflexive and symmetric (but not transitive, see the counterexample);
`Duration("1s") == Duration("1000ms")` and `Duration("1s") != Duration("1001ms")`. -/
theorem duration_eq_refl_symm :
    (∀ a : Duration, a.eqB a = true) ∧
    (∀ a b : Duration, a.eqB b = b.eqB a) ∧
    Duration.eqB ⟨1, .S⟩ ⟨1000, .MS⟩ = true ∧
    Duration.eqB ⟨1, .S⟩ ⟨1001, .MS⟩ = false := by
  refine ⟨?_, ?_, ?_, ?_⟩
  · intro a
    rw [Duration.eqB_iff]
    norm_num
  · intro a b
    rw [Bool.eq_iff_iff, Duration.eqB_iff, Duration.eqB_iff, abs_sub_comm]
  · rw [Duration.eqB_iff]
    norm_num [Duration.valueNs, TimeUnit.val]
  · rw [← Bool.not_eq_true, Duration.eqB_iff]
    norm_num [Duration.valueNs, TimeUnit.val, abs_lt]

/-- C5 (confirmed): `optimize` preserves the physical value and lands on
the largest unit whose magnitude lies in `[1, 1000)`, falling back to
nanoseconds when no unit qualifies (too large, too small, zero, or
negative); `Duration(999, ns)` stays in NS, `Duration(1002, ns)` moves to
US and equals `Duration(0.001002, ms)`. -/
theorem duration_optimize_spec :
    (∀ d : Duration,
      d.optimize.valueNs = d.valueNs ∧
      ((∃ u, satUnit d u) →
        satUnit d d.optimize.unit ∧ ∀ u, satUnit d u → u.val ≤ d.optimize.unit.val) ∧
      ((∀ u, ¬ satUnit d u) → d.optimize.unit = .NS)) ∧
    (Duration.optimize ⟨999, .NS⟩).unit = .NS ∧
    (Duration.optimize ⟨1002, .NS⟩).unit = .US ∧
    (Duration.optimize ⟨1002, .NS⟩).eqB ⟨1002/1000000, .MS⟩ = true := by
  refine ⟨?_, ?_, ?_, ?_⟩
  · intro d
    refine ⟨Duration.valueNs_optimize d, ?_, ?_⟩
    · rintro ⟨u, hu⟩
      rcases optimize_unit_cases d with h | h
      · exact h
      · exact absurd hu (h.1 u)
    · intro hall
      rcases optimize_unit_cases d with h | h
      · exact absurd h.1 (hall _)
      · exact h.2
  · norm_num [Duration.optimize, Duration.toFloat, Duration.inUnit, TimeUnit.val]
  · norm_num [Duration.optimize, Duration.toFloat, Duration.inUnit, TimeUnit.val]
  · rw [Duration.eqB_iff]
    norm_num [Duration.optimize, Duration.toFloat, Duration.inUnit, Duration.valueNs,
      TimeUnit.val, abs_lt]

/-- C5 witness: `Duration(2500, ns)` has a satisfying unit (US), and
`optimize` lands on it. -/
theorem duration_optimize_spec_witness :
    (∃ u, satUnit ⟨2500, .NS⟩ u) ∧
    (satUnit ⟨2500, .NS⟩ (Duration.optimize ⟨2500, .NS⟩).unit ∧
      ∀ u, satUnit ⟨2500, .NS⟩ u →
        u.val ≤ (Duration.optimize ⟨2500, .NS⟩).unit.val) :=
  have h : ∃ u, satUnit ⟨2500, .NS⟩ u :=
    ⟨.US, by norm_num [satUnit, Duration.toFloat, TimeUnit.val]⟩
  ⟨h, ((duration_optimize_spec.1 ⟨2500, .NS⟩).2.1) h⟩

/-- C6 (code_bug): for `v_min = 1 > v_max = 0`, `set_range_V` does not
raise the `RuntimeError` its docstring promises — it configures
`scale = -1/8`, `offset = -1/2` on the channel and returns `(1, 0)`. -/
theorem setRangeV_no_validation :
    setRangeV id id 8 ⟨0, 0⟩ 1 0 = ((1, 0), ⟨-1/8, -1/2⟩) := by
  norm_num [setRangeV, getRangeV]

/-- C7 (confirmed): after `set_range_V(v_min, v_max)` with `v_min < v_max`,
`get_range_V()` returns exactly `(v_min, v_max)` on a device that
configures scale and offset verbatim, and on a quantizing device the
endpoints are off by at most the offset error plus `n/2` times the scale
error. -/
theorem setRangeV_roundtrip (quantS quantO : ℚ → ℚ) (n vmin vmax es eo : ℚ)
    (st : ChanState) (hlt : vmin < vmax) (hn : n ≠ 0)
    (hs : |quantS ((vmax - vmin) / n) - (vmax - vmin) / n| ≤ es)
    (ho : |quantO ((vmax - vmin) / 2 - vmax) - ((vmax - vmin) / 2 - vmax)| ≤ eo) :
    (setRangeV id id n st vmin vmax).1 = (vmin, vmax) ∧
    |(setRangeV quantS quantO n st vmin vmax).1.1 - vmin| ≤ eo + |n| * es / 2 ∧
    |(setRangeV quantS quantO n st vmin vmax).1.2 - vmax| ≤ eo + |n| * es / 2 := by
  have hvmin : vmin = -((vmax - vmin) / 2 - vmax) - (vmax - vmin) / n * n / 2 := by
    field_simp
    try ring
  have hvmax : vmax = -((vmax - vmin) / 2 - vmax) + (vmax - vmin) / n * n / 2 := by
    field_simp
    try ring
  refine ⟨?_, ?_, ?_⟩
  · simp only [setRangeV, getRangeV, id_eq, Prod.mk.injEq]
    constructor
    · conv_rhs => rw [hvmin]
    · conv_rhs => rw [hvmax]
  · simp only [setRangeV, getRangeV]
    generalize hq1 : quantO ((vmax - vmin) / 2 - vmax) = oq at ho ⊢
    generalize hq2 : quantS ((vmax - vmin) / n) = sq at hs ⊢
    rw [hvmin]
    exact (rangeEndpointErr oq _ sq _ n eo es ho hs).1
  · simp only [setRangeV, getRangeV]
    generalize hq1 : quantO ((vmax - vmin) / 2 - vmax) = oq at ho ⊢
    generalize hq2 : quantS ((vmax - vmin) / n) = sq at hs ⊢
    rw [hvmax]
    exact (rangeEndpointErr oq _ sq _ n eo es ho hs).2

/-- C7 witness: the exact round-trip at `v_min = 0`, `v_max = 1`, `n = 8`
with identity quantizers and zero error bounds. -/
theorem setRangeV_roundtrip_witness :
    (0 : ℚ) < 1 ∧ (8 : ℚ) ≠ 0 ∧
    ((setRangeV id id 8 ⟨0, 0⟩ 0 1).1 = (0, 1) ∧
      |(setRangeV id id 8 ⟨0, 0⟩ 0 1).1.1 - 0| ≤ 0 + |(8 : ℚ)| * 0 / 2 ∧
      |(setRangeV id id 8 ⟨0, 0⟩ 0 1).1.2 - 1| ≤ 0 + |(8 : ℚ)| * 0 / 2) :=
  ⟨by norm_num, by norm_num,
    setRangeV_roundtrip id id 8 0 1 0 0 ⟨0, 0⟩ (by norm_num) (by norm_num)
      (by norm_num) (by norm_num)⟩

/-- C9 counterexample: the `name` property setter mutates the waveform in
place — after `w.name = "b"` the stored state differs from the original. -/
theorem waveform_setName_mutates :
    Waveform.setName ⟨1, 0, [2], "a"⟩ "b" ≠ (⟨1, 0, [2], "a"⟩ : Waveform) := by
  decide

/-- C9 (amended): every public `Waveform` operation except the `name`
setter leaves the receiver's stored state untouched and returns a fresh
value; the `name` setter rewrites only the stored name. -/
theorem waveform_ops_pure (w other : Waveform) (u : TimeUnit) (c : ℚ) (n : String) :
    (w.getName).2 = w ∧
    (w.yOp).2 = w ∧
    (w.xOp u).2 = w ∧
    (w.xyOp u).2 = w ∧
    (w.mulScalarOp c).2 = w ∧
    (w.divScalarOp c).2 = w ∧
    (w.addOp other).2 = w ∧
    (w.subOp other).2 = w ∧
    (w.setName n).dx_s = w.dx_s ∧
    (w.setName n).trigger_index = w.trigger_index ∧
    (w.setName n).ys = w.ys ∧
    (w.setName n).name = n :=
  ⟨rfl, rfl, rfl, rfl, rfl, rfl, rfl, rfl, rfl, rfl, rfl, rfl⟩

/-- C1 (code_bug): the claim states `get_waveform`'s documented intent
(its interface docstring promises a downloaded `Waveform`), but no call
can fulfil it: the constructor arguments are evaluated — the samples by
the claimed volts scaling, the trigger index by Python `int(...)`
truncation, which yields 1 at this input where the claimed `round(...)`
gives 2 — and then `Waveform(dx_s=…, trigger_index=…, ys=…)` is called
without its required `name` argument, so every successful decode ends in
`TypeError` and `get_waveform` never produces a Waveform. -/
theorem sds8GetWaveform_typeError :
    (∀ (p : Preamble) (ndiv : ℕ) (data : List ℕ) (w : Waveform),
      sds8GetWaveform p ndiv data ≠ .waveform w) ∧
    sds8DecodeVals ⟨1, 0, 1, 1/320000000, 0, 2⟩ 10 [1, 0]
      = some (1/320000000, 1, [1]) ∧
    sds8GetWaveform ⟨1, 0, 1, 1/320000000, 0, 2⟩ 10 [1, 0] = .typeError ∧
    round ((tdivEnum.getD 2 0 * (10 : ℚ) / 2 - 0) / (1/320000000)) = 2 ∧
    (1 : ℤ) ≠ 2 := by
  refine ⟨?_, ?_, ?_, ?_, by decide⟩
  · intro p ndiv data w
    unfold sds8GetWaveform
    cases sds8DecodeVals p ndiv data with
    | none => exact fun h => SDS8GetWaveformResult.noConfusion h
    | some v => exact fun h => SDS8GetWaveformResult.noConfusion h
  · norm_num [sds8DecodeVals, tdivEnum, frombufferI16, int16OfBytes, pyTrunc,
      List.get?]
  · norm_num [sds8GetWaveform, sds8DecodeVals, tdivEnum, frombufferI16,
      int16OfBytes, pyTrunc, List.get?]
  · norm_num [tdivEnum, round_eq]

/-- The decode that feeds the failing constructor call is itself per the
claimed scaling formula, with the `int(...)`-truncated trigger index: for
every in-range timebase index and well-formed data block, `sds8DecodeVals`
yields the horizontal interval, `int((tb * ndiv/2 - delay)/interval)`, and
the byte-pairwise scaled samples. -/
theorem sds8DecodeVals_spec (p : Preamble) (ndiv : ℕ) (data : List ℕ)
    (codes : List ℤ) (ht : p.tdiv_index < 39)
    (hd : frombufferI16 data = some codes) :
    ∃ ys, sds8DecodeVals p ndiv data
        = some (p.horizontal_interval,
            pyTrunc ((tdivEnum.getD p.tdiv_index 0 * (ndiv : ℚ) / 2
              - p.trigger_delay) / p.horizontal_interval), ys) ∧
      ys.length = data.length / 2 ∧
      ∀ j, j < ys.length →
        ys.getD j 0 = (int16OfBytes (data.getD (2 * j) 0) (data.getD (2 * j + 1) 0) : ℚ)
          * p.vertical_scale / p.code_per_division - p.vertical_offset := by
  have hlt : p.tdiv_index < tdivEnum.length := by
    have hlen : tdivEnum.length = 39 := rfl
    omega
  have hget : tdivEnum.get? p.tdiv_index = some (tdivEnum.getD p.tdiv_index 0) := by
    rw [List.get?_eq_get hlt, List.getD_eq_get tdivEnum 0 hlt]
  obtain ⟨hlen2, hidx⟩ := frombufferI16_sound data codes hd
  have hw : sds8DecodeVals p ndiv data
      = some (p.horizontal_interval,
          pyTrunc ((tdivEnum.getD p.tdiv_index 0 * (ndiv : ℚ) / 2
            - p.trigger_delay) / p.horizontal_interval),
          codes.map (fun c : ℤ => (c : ℚ) * p.vertical_scale / p.code_per_division
            - p.vertical_offset)) := by
    unfold sds8DecodeVals
    rw [hget, hd]
    rfl
  refine ⟨_, hw, ?_, ?_⟩
  · simpa using hlen2
  · intro j hj
    have hj' : j < codes.length := by simpa using hj
    have h1 : (codes.map (fun c : ℤ => (c : ℚ) * p.vertical_scale / p.code_per_division
        - p.vertical_offset)).getD j 0
        = (codes.getD j 0 : ℚ) * p.vertical_scale / p.code_per_division
          - p.vertical_offset := by
      rw [List.getD_eq_get _ 0 (by simpa using hj), List.getD_eq_get _ 0 hj',
        List.get_map]
    rw [h1, hidx j hj']

/-- C8 counterexample: a negative timeout is not `None`, and once it "has
elapsed" (every elapsed value exceeds it) the claim demands `False` be
returned — but the code maps `None` to `-1` and treats every negative
`timeout_s` as "poll forever": after 5 polls past the deadline it is still
polling, not returning `False`. -/
theorem waitForWaveform_negative_timeout_cex :
    waitForWaveform "auto".data (fun _ => "".data) (fun _ => 0)
      (fun k => (k : ℚ)) (some (-1)) false 5 = .polling ∧
    (some (-1 : ℚ)).isSome = true ∧
    (-1 : ℚ) ≤ (fun k => (k : ℚ)) 0 ∧
    WaitOutcome.polling ≠ WaitOutcome.timedOut := by
  have hm : ("auto".data.map lowerChar = "single".data) = False := by decide
  refine ⟨?_, rfl, by norm_num, by decide⟩
  simp only [waitForWaveform, waitLoop, pollFired, hm, if_false]
  norm_num

/-- C8 (amended): polling `wait_for_waveform` returns true at the first
poll that observes the fired condition (status `"stop"` in single mode,
INR least-significant bit otherwise); when the trigger never fires and a
timeout `t ≥ 0` is given it returns false — or raises when
`error_on_timeout` — once the elapsed time reaches `t`; with no timeout it
never times out and polls indefinitely. A negative `t` (not covered by the
original claim's promise) also polls indefinitely, as the counterexample
shows. -/
theorem waitForWaveform_spec (mode : List Char) (status : ℕ → List Char)
    (inr : ℕ → ℕ) (elapsed : ℕ → ℚ) (t : ℚ) (eot : Bool) (fuel K : ℕ) :
    (K < fuel → pollFired mode status inr K = true →
      (∀ j, j < K → pollFired mode status inr j = false) →
      (∀ j, j < K → ¬ (0 ≤ t ∧ t ≤ elapsed j)) →
      waitForWaveform mode status inr elapsed (some t) eot fuel = .fired) ∧
    ((∀ j, pollFired mode status inr j = false) → K < fuel → 0 ≤ t →
      t ≤ elapsed K →
      waitForWaveform mode status inr elapsed (some t) eot fuel
        = (if eot then .timeoutError else .timedOut)) ∧
    (K < fuel → pollFired mode status inr K = true →
      (∀ j, j < K → pollFired mode status inr j = false) →
      waitForWaveform mode status inr elapsed none eot fuel = .fired) ∧
    (waitForWaveform mode status inr elapsed none eot fuel ≠ .timedOut ∧
      waitForWaveform mode status inr elapsed none eot fuel ≠ .timeoutError) ∧
    ((∀ j, pollFired mode status inr j = false) →
      waitForWaveform mode status inr elapsed none eot fuel = .polling) ∧
    (t < 0 →
      waitForWaveform mode status inr elapsed (some t) eot fuel ≠ .timedOut ∧
      waitForWaveform mode status inr elapsed (some t) eot fuel ≠ .timeoutError) := by
  refine ⟨?_, ?_, ?_, ?_, ?_, ?_⟩
  · intro hK hf hprev htime
    exact waitLoop_fired_first _ _ _ _ K fuel 0 hK (by simpa using hf)
      (fun j hj => by simpa using hprev j hj)
      (fun j hj => by simpa using htime j hj)
  · intro hnf hK ht he
    exact waitLoop_timeout _ _ _ _ ht hnf K fuel 0 hK (by simpa using he)
  · intro hK hf hprev
    exact waitLoop_fired_first _ _ _ _ K fuel 0 hK (by simpa using hf)
      (fun j hj => by simpa using hprev j hj)
      (fun j hj h => by norm_num at h)
  · exact waitLoop_no_timeout_exit _ _ _ _ (by norm_num) fuel 0
  · intro hnf
    exact waitLoop_polling _ _ _ _ (by norm_num) hnf fuel 0
  · intro ht
    exact waitLoop_no_timeout_exit _ _ _ _ ht fuel 0

/-- C8 witness: in single mode with an immediate `"stop"` status the very
first poll fires. -/
theorem waitForWaveform_spec_witness :
    (0 < 1 ∧ pollFired "single".data (fun _ => "stop".data) (fun _ => 0) 0 = true) ∧
    waitForWaveform "single".data (fun _ => "stop".data) (fun _ => 0)
      (fun _ => 0) (some 0) false 1 = .fired :=
  ⟨⟨by norm_num, by decide⟩,
    (waitForWaveform_spec "single".data (fun _ => "stop".data) (fun _ => 0)
        (fun _ => 0) 0 false 1 0).1
      (by norm_num) (by decide)
      (fun j hj => absurd hj (by omega))
      (fun j hj => absurd hj (by omega))⟩

/-- C2 counterexample: on a device that quantizes requested scales down to
the 1–2–5 ladder `nsLadder`, `set_time_window("23us")` (10 divisions)
exhausts all 50 attempts and returns a 100 µs window, even though 50 µs
(scale 5 µs/div) is a supported window that already covers 23 µs — the
returned window exceeds the smallest supported window ≥ the request. -/
theorem setTimeWindow_overshoot_cex :
    (setTimeWindow stsDown ⟨1000, .NS⟩ 10 ⟨23, .US⟩).valueNs = 100000 ∧
    (5000 : ℚ) ∈ nsLadder ∧
    (⟨23, .US⟩ : Duration).valueNs ≤ 5000 * 10 ∧
    ¬ (setTimeWindow stsDown ⟨1000, .NS⟩ 10 ⟨23, .US⟩).valueNs ≤ 5000 * 10 := by
  have h : (setTimeWindow stsDown ⟨1000, .NS⟩ 10 ⟨23, .US⟩).valueNs = 100000 := by
    norm_num [setTimeWindow, setTimeWindowGo, stsDown, quantDown, nsLadder,
      Duration.geB, Duration.gtB, Duration.eqB, Duration.ltB, Duration.sub, Duration.absD,
      Duration.optimize, Duration.toFloat, Duration.inUnit, Duration.valueNs,
      Duration.mulScalar, Duration.divScalar, Duration.onePicosecond, TimeUnit.val,
      List.filter, List.foldl, List.range, List.range.loop]
  refine ⟨h, ?_, ?_, ?_⟩
  · norm_num [nsLadder]
  · norm_num [Duration.valueNs, TimeUnit.val]
  · rw [h]
    norm_num

/-- C2 (amended): `set_time_window(w)` requests `w / ndiv` per division
and widens the request by 10% of the original per failed attempt (the
first retry repeats the original request), accepting the first configured
scale ≥ the current request under the 1 ps tolerance; on a device that
never configures a scale below the request, the first attempt is accepted
and the returned window is `ndiv × set_time_scale(w/ndiv) ≥ w`. On a
device that rounds requests down the loop can exhaust and return a window
larger than the smallest supported window ≥ w (see the counterexample). -/
theorem setTimeWindow_round_up (sts : Duration → Duration) (st0 : Duration)
    (ndiv : ℕ) (w : Duration) (hnd : 0 < ndiv)
    (hup : ∀ d, d.valueNs ≤ (sts d).valueNs) :
    (setTimeWindow sts st0 ndiv w).valueNs
      = (ndiv : ℚ) * (sts (w.divScalar ndiv)).valueNs ∧
    w.valueNs ≤ (setTimeWindow sts st0 ndiv w).valueNs := by
  have hge : (sts (w.divScalar ndiv)).geB (w.divScalar ndiv) = true := by
    rw [Duration.geB_iff]
    rcases lt_or_eq_of_le (hup (w.divScalar ndiv)) with h | h
    · exact Or.inl h
    · right
      rw [← h, sub_self, abs_zero]
      norm_num
  have hrange : List.range 50 = 0 :: (List.range 49).map Nat.succ :=
    List.range_succ_eq_map 49
  have hloop : setTimeWindowGo sts (w.divScalar ndiv) (List.range 50)
      (w.divScalar ndiv) st0 = sts (w.divScalar ndiv) := by
    rw [hrange]
    simp only [setTimeWindowGo, hge, if_true]
  have hval : (setTimeWindow sts st0 ndiv w).valueNs
      = (sts (w.divScalar ndiv)).valueNs * ndiv := by
    rw [setTimeWindow, hloop, Duration.valueNs_optimize, valueNs_mulScalar]
  have hndQ : (ndiv : ℚ) ≠ 0 := by
    exact_mod_cast Nat.pos_iff_ne_zero.mp hnd
  constructor
  · rw [hval]
    ring
  · rw [hval]
    have hw : w.valueNs = (w.divScalar ndiv).valueNs * ndiv := by
      rw [valueNs_divScalar, div_mul_cancel₀ _ hndQ]
    rw [hw]
    exact mul_le_mul_of_nonneg_right (hup _) (by positivity)

/-- C2 witness: with an identity (non-quantizing) device, a 23 µs request
over 10 divisions yields exactly the requested window. -/
theorem setTimeWindow_round_up_witness :
    0 < 10 ∧
    ((setTimeWindow (fun d => d) ⟨0, .NS⟩ 10 ⟨23, .US⟩).valueNs
        = (10 : ℚ) * ((⟨23, .US⟩ : Duration).divScalar 10).valueNs ∧
      (⟨23, .US⟩ : Duration).valueNs
        ≤ (setTimeWindow (fun d => d) ⟨0, .NS⟩ 10 ⟨23, .US⟩).valueNs) :=
  ⟨by norm_num,
    setTimeWindow_round_up (fun d => d) ⟨0, .NS⟩ 10 ⟨23, .US⟩ (by norm_num)
      (fun d => le_refl _)⟩

/-- C10 (confirmed): `CommandDispatcher.read` strips the transport reply
but, lacking a `return`, always hands `None` back to the caller, while
`CommandDispatcher.query` returns the trimmed reply. -/
theorem dispatcherRead_returns_none (transport : String → String) (msg : String) :
    dispatcherRead transport msg = none ∧
    dispatcherQuery transport msg = some ((transport msg).trim) :=
  ⟨rfl, rfl⟩

end Inctrl
